import Mathlib

/-!
Verification development for the server-generator pipeline
(`validateConfig`, `parseNodes`, `generateServerCode`, `generateRouteMessage`
of `generate_server.js`).

The source is untyped JavaScript; the embedding uses a small JavaScript-like
value type `JVal` for the node-property fields whose behaviour depends on
JavaScript truthiness or strict equality (`auth_required`, `admin_required`,
`log_requests`, `allowed_origins`, `target`), and plain `Option String` for
the fields the code only ever compares with string literals or interpolates
into text (`type`, `endpoint`, `method`).  The unused node fields `name` and
`source` are omitted.
-/

/-- A JavaScript-like value, used for node-property fields. -/
inductive JVal where
  | null : JVal
  | bool : Bool → JVal
  | num : Int → JVal
  | str : String → JVal
  | arr : List JVal → JVal
deriving Repr

/-- JavaScript truthiness of a `JVal` (arrays are always truthy). -/
def JVal.truthy : JVal → Bool
  | .null => false
  | .bool b => b
  | .num n => n != 0
  | .str s => s != ""
  | .arr _ => true

/-- Truthiness of an optional field (`none` is `undefined`, which is falsy). -/
def truthyOpt : Option JVal → Bool
  | none => false
  | some v => v.truthy

/-- JavaScript strict equality of a `JVal` against a string (`v === s`). -/
def jvalEqStr : JVal → String → Bool
  | .str t, s => t == s
  | _, _ => false

/-- `JSON.stringify`-style escaping of one character inside a string literal. -/
def jsEscapeChar (c : Char) : String :=
  if c = '\\' then "\\\\"
  else if c = '"' then "\\\""
  else String.singleton c

mutual

/-- `JSON.stringify` of a `JVal` (the fragments the generator can emit). -/
def JVal.stringify : JVal → String
  | .null => "null"
  | .bool b => if b then "true" else "false"
  | .num n => toString n
  | .str s => "\"" ++ String.join (s.toList.map jsEscapeChar) ++ "\""
  | .arr xs => "[" ++ String.intercalate "," (JVal.stringifyList xs) ++ "]"

/-- `JSON.stringify` applied to each element of an array value. -/
def JVal.stringifyList : List JVal → List String
  | [] => []
  | x :: xs => JVal.stringify x :: JVal.stringifyList xs

end

/-- The interpreted keys of a node's `properties` object; an absent key is
`none` (JavaScript `undefined`). -/
structure Props where
  type : Option String := none
  endpoint : Option String := none
  method : Option String := none
  auth_required : Option JVal := none
  admin_required : Option JVal := none
  allowed_origins : Option JVal := none
  log_requests : Option JVal := none
deriving Repr

/-- A node of the input graph document.  `name` and `source` are never read
by the generator and are omitted. -/
structure Node where
  id : String
  target : Option JVal := none
  properties : Option Props := none
deriving Repr

/-- `result.cors` of `parseNodes`: `options.origin` starts absent. -/
structure CorsState where
  enabled : Bool
  origin : Option JVal
deriving Repr

/-- `result.auth` of `parseNodes` (its `routes` list is never written). -/
structure AuthState where
  enabled : Bool
  routes : List String
deriving Repr

/-- `result.adminAuth` of `parseNodes`. -/
structure AdminAuthState where
  enabled : Bool
  routes : List String
deriving Repr

/-- `result.logging` of `parseNodes`. -/
structure LoggingState where
  enabled : Bool
deriving Repr

/-- One route record pushed by the first pass of `parseNodes`. -/
structure Route where
  id : String
  endpoint : String
  method : String
  authRequired : Bool
  adminRequired : Bool
deriving Repr, DecidableEq

/-- The structured result of `parseNodes`. -/
structure ParsedConfig where
  cors : CorsState
  auth : AuthState
  adminAuth : AdminAuthState
  logging : LoggingState
  routes : List Route
deriving Repr

/-- The initial `result` object of `parseNodes`. -/
def initConfig : ParsedConfig :=
  { cors := { enabled := false, origin := none }
  , auth := { enabled := false, routes := [] }
  , adminAuth := { enabled := false, routes := [] }
  , logging := { enabled := false }
  , routes := [] }

/-- Whether `properties.auth_required` is the explicit boolean `false`
(the only value for which `properties.auth_required !== false` fails). -/
def isExplicitFalse : Option JVal → Bool
  | some (.bool false) => true
  | _ => false

/-- Truthiness of an optional string field (`endpoint`, `method`):
absent or the empty string is falsy. -/
def truthyStr : Option String → Bool
  | none => false
  | some s => s != ""

/-- The route object literal pushed by the first pass:
`method` defaults to `"GET"` when falsy, `authRequired` is
`properties.auth_required !== false`, `adminRequired` is
`!!properties.admin_required`. -/
def mkRoute (id : String) (p : Props) : Route :=
  { id := id
  , endpoint := p.endpoint.getD ""
  , method := match p.method with
      | some s => if s == "" then "GET" else s
      | none => "GET"
  , authRequired := !(isExplicitFalse p.auth_required)
  , adminRequired := truthyOpt p.admin_required }

/-- One iteration of the first pass of `parseNodes`: middleware nodes toggle
the feature flags, non-middleware nodes with a truthy `endpoint` append a
route record, all other nodes are skipped.  (The four flag updates of the
source act on disjoint fields, so they are written as one record update.) -/
def pass1Step (st : ParsedConfig) (node : Node) : ParsedConfig :=
  match node.properties with
  | none => st
  | some p =>
    if p.type == some "middleware" then
      { st with
        cors := if truthyOpt p.allowed_origins then
            { enabled := true, origin := p.allowed_origins } else st.cors
        auth := if truthyOpt p.auth_required then
            { st.auth with enabled := true } else st.auth
        adminAuth := if truthyOpt p.admin_required then
            { st.adminAuth with enabled := true } else st.adminAuth
        logging := if truthyOpt p.log_requests then
            { enabled := true } else st.logging }
    else if truthyStr p.endpoint then
      { st with routes := st.routes ++ [mkRoute node.id p] }
    else st

/-- `Array.isArray(node.target) ? node.target : [node.target]`. -/
def targetIds : JVal → List JVal
  | .arr xs => xs
  | v => [v]

/-- `findIndex`-and-update of the second pass: set `adminRequired := true` on
the first route record whose `id === targetId` and return its `endpoint`
(returning `none` models `routeIndex === -1`). -/
def markAdmin : List Route → JVal → List Route × Option String
  | [], _ => ([], none)
  | r :: rs, tid =>
    if jvalEqStr tid r.id then
      ({ r with adminRequired := true } :: rs, some r.endpoint)
    else
      let p := markAdmin rs tid
      (r :: p.1, p.2)

/-- Processing of one `targetId` in the second pass: look up the target node,
require it to have a truthy `endpoint`, then mark the matching route record
and push its endpoint onto `adminAuth.routes`. -/
def pass2Target (nodes : List Node) (st : ParsedConfig) (tid : JVal) :
    ParsedConfig :=
  match nodes.find? (fun n => jvalEqStr tid n.id) with
  | none => st
  | some tn =>
    match tn.properties with
    | none => st
    | some tp =>
      if truthyStr tp.endpoint then
        match markAdmin st.routes tid with
        | (rs, some ep) =>
          { st with
            routes := rs
            adminAuth :=
              { st.adminAuth with routes := st.adminAuth.routes ++ [ep] } }
        | (_, none) => st
      else st

/-- One iteration of the second pass of `parseNodes`: admin-required
middleware nodes with a truthy `target` propagate `adminRequired` to each
targeted route. -/
def pass2Step (nodes : List Node) (st : ParsedConfig) (node : Node) :
    ParsedConfig :=
  match node.properties with
  | none => st
  | some p =>
    if p.type == some "middleware" then
      if truthyOpt p.admin_required && truthyOpt node.target then
        match node.target with
        | some t => (targetIds t).foldl (pass2Target nodes) st
        | none => st
      else st
    else st

/-- `parseNodes`: first pass builds flags and route records, second pass
propagates admin requirements along middleware targets. -/
def parseNodes (nodes : List Node) : ParsedConfig :=
  nodes.foldl (pass2Step nodes) (nodes.foldl pass1Step initConfig)

/-- The emitted authentication-middleware definition (verbatim template). -/
def authMiddlewareDef : String :=
  "const authMiddleware = (req, res, next) => \x7b\n  if (!req.headers.authorization) \x7b\n    return res.status(401).json(\x7b message: \"Unauthorized\" \x7d);\n  \x7d\n  next();\n\x7d;\n\n"

/-- The emitted admin-authentication-middleware definition (verbatim). -/
def adminMiddlewareDef : String :=
  "const adminMiddleware = (req, res, next) => \x7b\n  if (req.headers.authorization !== \"admin\") \x7b\n    return res.status(403).json(\x7b message: \"Forbidden\" \x7d);\n  \x7d\n  next();\n\x7d;\n\n"

/-- The emitted logging-middleware definition (verbatim). -/
def loggingMiddlewareDef : String :=
  "const loggingMiddleware = (req, res, next) => \x7b\n  console.log(`[$\x7bnew Date().toISOString()\x7d] $\x7breq.method\x7d $\x7breq.url\x7d`);\n  next();\n\x7d;\n\n"

/-- `origin.includes(\x27*\x27)`-style test of one element. -/
def isStarStr (v : JVal) : Bool := jvalEqStr v "*"

/-- The origin expression of the CORS registration:
`Array.isArray(origin) && origin.includes("*") ? "\"*\"" : JSON.stringify(origin)`
(an absent origin renders as `undefined`, as interpolation of `undefined` would). -/
def originRender : Option JVal → String
  | some (.arr xs) =>
    if xs.any isStarStr then "\"*\"" else JVal.stringify (.arr xs)
  | some v => JVal.stringify v
  | none => "undefined"

/-- The CORS registration line, emitted only when CORS is enabled. -/
def corsSection (cors : CorsState) : String :=
  if cors.enabled then
    "app.use(cors(\x7b origin: " ++ originRender cors.origin ++ " \x7d));\n"
  else ""

/-- `generateRouteMessage`: strip one leading slash, look the name up in the
fixed switch, else capitalize the first character and append " resource". -/
def generateRouteMessage (endpoint : String) : String :=
  let routeName := if endpoint.startsWith "/" then endpoint.drop 1 else endpoint
  if routeName == "login" then "Login successful"
  else if routeName == "signup" then "Signup successful"
  else if routeName == "signout" then "Signout successful"
  else if routeName == "user" then "User data"
  else if routeName == "admin" then "Admin data"
  else if routeName == "home" then "Welcome to Home Page"
  else if routeName == "about" then "About us"
  else if routeName == "news" then "Latest news"
  else if routeName == "blogs" then "Blogs list"
  else (routeName.take 1).toUpper ++ routeName.drop 1 ++ " resource"

/-- The `middlewares` array built for one route registration: pushed in the
fixed order auth, admin, logging, each guarded by the route flag *and* the
corresponding enabled flag (logging by the enabled flag alone). -/
def routeMiddlewares (authEnabled adminEnabled loggingEnabled : Bool)
    (r : Route) : List String :=
  (if r.authRequired && authEnabled then ["authMiddleware"] else []) ++
  (if r.adminRequired && adminEnabled then ["adminMiddleware"] else []) ++
  (if loggingEnabled then ["loggingMiddleware"] else [])

/-- `middlewares.join(", ") + ", "` when the array is non-empty. -/
def mwListText (mws : List String) : String :=
  if mws.length > 0 then String.intercalate ", " mws ++ ", " else ""

/-- The textual shape of one route registration, parametrized by the
middleware fragment spliced between the path and the handler. -/
def routeLineTemplate (r : Route) (mwText : String) : String :=
  "app." ++ r.method.toLower ++ "(\"" ++ r.endpoint ++ "\", " ++ mwText ++
    "(req, res) => res.json(\x7b message: \"" ++
    generateRouteMessage r.endpoint ++ "\" \x7d));\n"

/-- One route registration statement as emitted by `generateServerCode`. -/
def routeCode (authEnabled adminEnabled loggingEnabled : Bool)
    (r : Route) : String :=
  routeLineTemplate r
    (mwListText (routeMiddlewares authEnabled adminEnabled loggingEnabled r))

/-- Everything `generateServerCode` emits before the route registrations:
imports, app creation, CORS registration, JSON body parser, and the three
conditional middleware definitions. -/
def emitHeader (pc : ParsedConfig) : String :=
  "const express = require(\"express\");\n" ++
  (if pc.cors.enabled then "const cors = require(\"cors\");\n" else "") ++
  "const app = express();\n\n" ++
  corsSection pc.cors ++
  "app.use(express.json());\n\n" ++
  (if pc.auth.enabled then authMiddlewareDef else "") ++
  (if pc.adminAuth.enabled then adminMiddlewareDef else "") ++
  (if pc.logging.enabled then loggingMiddlewareDef else "")

/-- The final listen statement. -/
def listenSection : String :=
  "\napp.listen(3000, () => console.log(\"Server running on port 3000\"));\n"

/-- `generateServerCode`: header, one registration per route record in
order, then the listen statement. -/
def generateServerCode (pc : ParsedConfig) : String :=
  emitHeader pc ++
  String.join (pc.routes.map
    (routeCode pc.auth.enabled pc.adminAuth.enabled pc.logging.enabled)) ++
  listenSection

/-- The root `nodes` field of a configuration document: absent, present but
not an array, or an array of nodes. -/
inductive NodesField where
  | missing : NodesField
  | nonArray : JVal → NodesField
  | arr : List Node → NodesField

/-- A configuration document; `nodes` is the only root field the generator
reads. -/
structure Config where
  nodes : NodesField

/-- The two named validation failures of the spec: `ConfigShapeError` is the
source's error for a missing or non-array `nodes` field, `MissingEntryError`
the one for a document with no entry-typed node. -/
inductive GenError where
  | configShape : GenError
  | missingEntry : GenError
deriving Repr, DecidableEq

/-- `node.properties && node.properties.type === "entry"`. -/
def isEntryNode (n : Node) : Bool :=
  match n.properties with
  | some p => p.type == some "entry"
  | none => false

/-- `validateConfig`: reject a missing or non-array `nodes` field, then
reject the absence of an entry node. -/
def validateConfig (c : Config) : Except GenError Unit :=
  match c.nodes with
  | .arr ns => if ns.any isEntryNode then .ok () else .error .missingEntry
  | _ => .error .configShape

/-- `generateServer` without its file I/O: validate, then resolve and emit.
An error short-circuits before any resolution, so no output text exists. -/
def generateServer (c : Config) : Except GenError String :=
  match validateConfig c with
  | .error e => .error e
  | .ok _ =>
    match c.nodes with
    | .arr ns => .ok (generateServerCode (parseNodes ns))
    | _ => .error .configShape

/-! ## Spec-side predicates on nodes -/

/-- A node the first pass turns into a route record: properties present,
`type` not `"middleware"`, truthy `endpoint`. -/
def isRouteNodeB (n : Node) : Bool :=
  match n.properties with
  | none => false
  | some p => !(p.type == some "middleware") && truthyStr p.endpoint

/-- The route record the first pass produces for a node, if any
(mirrors the branch structure of `pass1Step`). -/
def routeOf (n : Node) : Option Route :=
  match n.properties with
  | none => none
  | some p =>
    if p.type == some "middleware" then none
    else if truthyStr p.endpoint then some (mkRoute n.id p)
    else none

/-- A middleware node with truthy `auth_required`. -/
def nodeIsAuthMw (n : Node) : Bool :=
  match n.properties with
  | none => false
  | some p => p.type == some "middleware" && truthyOpt p.auth_required

/-- A middleware node with truthy `admin_required`. -/
def nodeIsAdminMw (n : Node) : Bool :=
  match n.properties with
  | none => false
  | some p => p.type == some "middleware" && truthyOpt p.admin_required

/-- A middleware node with truthy `log_requests`. -/
def nodeIsLogMw (n : Node) : Bool :=
  match n.properties with
  | none => false
  | some p => p.type == some "middleware" && truthyOpt p.log_requests

/-- The node's own `admin_required` property is truthy. -/
def ownAdminTruthy (n : Node) : Bool :=
  match n.properties with
  | none => false
  | some p => truthyOpt p.admin_required

/-- The node's `target`, taken as a single value or a list, contains the
given id (as the claims read "lists this route's id anywhere in its
`target`"). -/
def listsInTarget (n : Node) (i : String) : Bool :=
  match n.target with
  | none => false
  | some t => (targetIds t).any (fun v => jvalEqStr v i)

/-! ## Generic fold lemmas -/

/-- A projection fixed by every step is fixed by the whole fold. -/
theorem foldl_fix {σ α β : Type} (g : σ → α → σ) (F : σ → β)
    (h : ∀ s a, F (g s a) = F s) :
    ∀ (l : List α) (s : σ), F (l.foldl g s) = F s := by
  intro l
  induction l with
  | nil => intro s; rfl
  | cons a l ih => intro s; rw [List.foldl_cons, ih, h]

/-- A predicate preserved by every step taken on a list element is
preserved by the whole fold. -/
theorem foldl_inv {σ α : Type} (g : σ → α → σ) (P : σ → Prop) (Q : α → Prop)
    (l : List α) (hl : ∀ a ∈ l, Q a)
    (hstep : ∀ s a, Q a → P s → P (g s a)) :
    ∀ s, P s → P (l.foldl g s) := by
  induction l with
  | nil => intro s hs; exact hs
  | cons a l ih =>
    intro s hs
    rw [List.foldl_cons]
    exact ih (fun b hb => hl b (List.mem_cons_of_mem a hb))
      (g s a) (hstep s a (hl a (List.mem_cons_self a l)) hs)

/-! ## First-pass characterization -/

theorem pass1Step_routes (st : ParsedConfig) (n : Node) :
    (pass1Step st n).routes = st.routes ++ (routeOf n).toList := by
  unfold pass1Step routeOf
  cases n.properties with
  | none => simp
  | some p =>
    by_cases hm : p.type == some "middleware"
    · simp [hm]
    · by_cases he : truthyStr p.endpoint <;> simp [hm, he]

theorem pass1_routes (ns : List Node) (st : ParsedConfig) :
    (ns.foldl pass1Step st).routes = st.routes ++ ns.filterMap routeOf := by
  induction ns generalizing st with
  | nil => simp
  | cons n ns ih =>
    rw [List.foldl_cons, ih, pass1Step_routes, List.filterMap_cons]
    cases routeOf n <;> simp

theorem pass1Step_auth (st : ParsedConfig) (n : Node) :
    (pass1Step st n).auth.enabled = (st.auth.enabled || nodeIsAuthMw n) := by
  unfold pass1Step nodeIsAuthMw
  cases n.properties with
  | none => simp
  | some p =>
    by_cases hm : p.type == some "middleware"
    · by_cases ha : truthyOpt p.auth_required <;> simp [hm, ha]
    · by_cases he : truthyStr p.endpoint <;> simp [hm, he]

theorem pass1Step_admin (st : ParsedConfig) (n : Node) :
    (pass1Step st n).adminAuth.enabled =
      (st.adminAuth.enabled || nodeIsAdminMw n) := by
  unfold pass1Step nodeIsAdminMw
  cases n.properties with
  | none => simp
  | some p =>
    by_cases hm : p.type == some "middleware"
    · by_cases ha : truthyOpt p.admin_required <;> simp [hm, ha]
    · by_cases he : truthyStr p.endpoint <;> simp [hm, he]

theorem pass1Step_logging (st : ParsedConfig) (n : Node) :
    (pass1Step st n).logging.enabled =
      (st.logging.enabled || nodeIsLogMw n) := by
  unfold pass1Step nodeIsLogMw
  cases n.properties with
  | none => simp
  | some p =>
    by_cases hm : p.type == some "middleware"
    · by_cases ha : truthyOpt p.log_requests <;> simp [hm, ha]
    · by_cases he : truthyStr p.endpoint <;> simp [hm, he]

theorem pass1_auth (ns : List Node) (st : ParsedConfig) :
    (ns.foldl pass1Step st).auth.enabled =
      (st.auth.enabled || ns.any nodeIsAuthMw) := by
  induction ns generalizing st with
  | nil => simp
  | cons n ns ih => rw [List.foldl_cons, ih, pass1Step_auth]; simp [Bool.or_assoc]

theorem pass1_admin (ns : List Node) (st : ParsedConfig) :
    (ns.foldl pass1Step st).adminAuth.enabled =
      (st.adminAuth.enabled || ns.any nodeIsAdminMw) := by
  induction ns generalizing st with
  | nil => simp
  | cons n ns ih => rw [List.foldl_cons, ih, pass1Step_admin]; simp [Bool.or_assoc]

theorem pass1_logging (ns : List Node) (st : ParsedConfig) :
    (ns.foldl pass1Step st).logging.enabled =
      (st.logging.enabled || ns.any nodeIsLogMw) := by
  induction ns generalizing st with
  | nil => simp
  | cons n ns ih => rw [List.foldl_cons, ih, pass1Step_logging]; simp [Bool.or_assoc]

theorem pass1Step_adminRoutes (st : ParsedConfig) (n : Node) :
    (pass1Step st n).adminAuth.routes = st.adminAuth.routes := by
  unfold pass1Step
  cases n.properties with
  | none => rfl
  | some p =>
    by_cases hm : p.type == some "middleware"
    · by_cases ha : truthyOpt p.admin_required <;> simp [hm, ha]
    · by_cases he : truthyStr p.endpoint <;> simp [hm, he]

theorem pass1_adminRoutes (ns : List Node) (st : ParsedConfig) :
    (ns.foldl pass1Step st).adminAuth.routes = st.adminAuth.routes :=
  foldl_fix pass1Step (fun s => s.adminAuth.routes) pass1Step_adminRoutes ns st

/-! ## Second-pass preservation lemmas -/

theorem markAdmin_map {β : Type} (f : Route → β)
    (hf : ∀ r, f { r with adminRequired := true } = f r) :
    ∀ (rs : List Route) (tid : JVal),
      ((markAdmin rs tid).1).map f = rs.map f := by
  intro rs tid
  induction rs with
  | nil => rfl
  | cons r rs ih =>
    unfold markAdmin
    by_cases h : jvalEqStr tid r.id
    · simp [h, hf]
    · simp [h, ih]

theorem pass2Target_cors (nodes : List Node) :
    ∀ (st : ParsedConfig) (tid : JVal),
      (pass2Target nodes st tid).cors = st.cors := by
  intro st tid
  unfold pass2Target
  repeat' split
  all_goals rfl

theorem pass2Target_auth (nodes : List Node) :
    ∀ (st : ParsedConfig) (tid : JVal),
      (pass2Target nodes st tid).auth = st.auth := by
  intro st tid
  unfold pass2Target
  repeat' split
  all_goals rfl

theorem pass2Target_logging (nodes : List Node) :
    ∀ (st : ParsedConfig) (tid : JVal),
      (pass2Target nodes st tid).logging = st.logging := by
  intro st tid
  unfold pass2Target
  repeat' split
  all_goals rfl

theorem pass2Target_adminEnabled (nodes : List Node) :
    ∀ (st : ParsedConfig) (tid : JVal),
      (pass2Target nodes st tid).adminAuth.enabled =
        st.adminAuth.enabled := by
  intro st tid
  unfold pass2Target
  repeat' split
  all_goals rfl

theorem pass2Target_routes_map {β : Type} (f : Route → β)
    (hf : ∀ r, f { r with adminRequired := true } = f r)
    (nodes : List Node) (st : ParsedConfig) (tid : JVal) :
    (pass2Target nodes st tid).routes.map f = st.routes.map f := by
  unfold pass2Target
  repeat' split
  all_goals try rfl
  next rs ep heq =>
    have hrs : rs = (markAdmin st.routes tid).1 := by rw [heq]
    simp only [hrs]
    exact markAdmin_map f hf st.routes tid

theorem pass2Target_adminRoutes_mono (nodes : List Node)
    (st : ParsedConfig) (tid : JVal) (x : String)
    (hx : x ∈ st.adminAuth.routes) :
    x ∈ (pass2Target nodes st tid).adminAuth.routes := by
  unfold pass2Target
  repeat' split
  all_goals try exact hx
  exact List.mem_append_left _ hx

theorem pass2Step_cors (nodes : List Node) :
    ∀ (st : ParsedConfig) (n : Node),
      (pass2Step nodes st n).cors = st.cors := by
  intro st n
  unfold pass2Step
  repeat' split
  all_goals try rfl
  exact foldl_fix (pass2Target nodes) (fun s => s.cors)
    (pass2Target_cors nodes) _ st

theorem pass2Step_auth (nodes : List Node) :
    ∀ (st : ParsedConfig) (n : Node),
      (pass2Step nodes st n).auth = st.auth := by
  intro st n
  unfold pass2Step
  repeat' split
  all_goals try rfl
  exact foldl_fix (pass2Target nodes) (fun s => s.auth)
    (pass2Target_auth nodes) _ st

theorem pass2Step_logging (nodes : List Node) :
    ∀ (st : ParsedConfig) (n : Node),
      (pass2Step nodes st n).logging = st.logging := by
  intro st n
  unfold pass2Step
  repeat' split
  all_goals try rfl
  exact foldl_fix (pass2Target nodes) (fun s => s.logging)
    (pass2Target_logging nodes) _ st

theorem pass2Step_adminEnabled (nodes : List Node) :
    ∀ (st : ParsedConfig) (n : Node),
      (pass2Step nodes st n).adminAuth.enabled = st.adminAuth.enabled := by
  intro st n
  unfold pass2Step
  repeat' split
  all_goals try rfl
  exact foldl_fix (pass2Target nodes) (fun s => s.adminAuth.enabled)
    (pass2Target_adminEnabled nodes) _ st

theorem pass2Step_routes_map {β : Type} (f : Route → β)
    (hf : ∀ r, f { r with adminRequired := true } = f r)
    (nodes : List Node) (st : ParsedConfig) (n : Node) :
    (pass2Step nodes st n).routes.map f = st.routes.map f := by
  unfold pass2Step
  repeat' split
  all_goals try rfl
  exact foldl_fix (pass2Target nodes) (fun s => s.routes.map f)
    (fun s a => pass2Target_routes_map f hf nodes s a) _ st

theorem pass2Step_adminRoutes_mono (nodes : List Node)
    (st : ParsedConfig) (n : Node) (x : String)
    (hx : x ∈ st.adminAuth.routes) :
    x ∈ (pass2Step nodes st n).adminAuth.routes := by
  unfold pass2Step
  repeat' split
  all_goals try exact hx
  exact foldl_inv (pass2Target nodes) (fun s => x ∈ s.adminAuth.routes)
    (fun _ => True) _ (fun _ _ => trivial)
    (fun s a _ h => pass2Target_adminRoutes_mono nodes s a x h) st hx

/-! ## `parseNodes`-level characterizations -/

theorem parseNodes_routes_map {β : Type} (f : Route → β)
    (hf : ∀ r, f { r with adminRequired := true } = f r) (ns : List Node) :
    (parseNodes ns).routes.map f = (ns.filterMap routeOf).map f := by
  unfold parseNodes
  rw [foldl_fix (pass2Step ns) (fun s => s.routes.map f)
    (fun s a => pass2Step_routes_map f hf ns s a) ns _]
  rw [pass1_routes]
  simp [initConfig]

theorem parseNodes_auth (ns : List Node) :
    (parseNodes ns).auth.enabled = ns.any nodeIsAuthMw := by
  unfold parseNodes
  rw [foldl_fix (pass2Step ns) (fun s => s.auth) (pass2Step_auth ns) ns _]
  rw [pass1_auth]
  simp [initConfig]

theorem parseNodes_adminEnabled (ns : List Node) :
    (parseNodes ns).adminAuth.enabled = ns.any nodeIsAdminMw := by
  unfold parseNodes
  rw [foldl_fix (pass2Step ns) (fun s => s.adminAuth.enabled)
    (pass2Step_adminEnabled ns) ns _]
  rw [pass1_admin]
  simp [initConfig]

theorem parseNodes_logging (ns : List Node) :
    (parseNodes ns).logging.enabled = ns.any nodeIsLogMw := by
  unfold parseNodes
  rw [foldl_fix (pass2Step ns) (fun s => s.logging)
    (pass2Step_logging ns) ns _]
  rw [pass1_logging]
  simp [initConfig]

/-! ## Correspondence between produced routes and route-bearing nodes -/

/-- Endpoint text of a route-bearing node. -/
def nodeEndpointText (n : Node) : String :=
  match n.properties with
  | none => ""
  | some p => p.endpoint.getD ""

/-- Method text of a route-bearing node (`properties.method || "GET"`). -/
def nodeMethodText (n : Node) : String :=
  match n.properties with
  | none => "GET"
  | some p =>
    match p.method with
    | some s => if s == "" then "GET" else s
    | none => "GET"

/-- Secure-by-default `authRequired` of a node:
true unless `auth_required` is the explicit boolean `false`. -/
def nodeAuthSpec (n : Node) : Bool :=
  match n.properties with
  | none => true
  | some p => !(isExplicitFalse p.auth_required)

theorem routeOf_isSome_iff (n : Node) :
    (routeOf n).isSome = isRouteNodeB n := by
  unfold routeOf isRouteNodeB
  cases n.properties with
  | none => rfl
  | some p =>
    by_cases hm : p.type == some "middleware"
    · simp [hm]
    · by_cases he : truthyStr p.endpoint <;> simp [hm, he]

theorem filterMap_routeOf_map {β : Type} (g : Route → β) (h : Node → β)
    (hg : ∀ n p, n.properties = some p → isRouteNodeB n = true →
      g (mkRoute n.id p) = h n) :
    ∀ ns : List Node,
      (ns.filterMap routeOf).map g = (ns.filter isRouteNodeB).map h := by
  intro ns
  induction ns with
  | nil => rfl
  | cons n ns ih =>
    rw [List.filterMap_cons, List.filter_cons]
    cases hp : n.properties with
    | none =>
      have h1 : routeOf n = none := by unfold routeOf; rw [hp]
      have h2 : isRouteNodeB n = false := by unfold isRouteNodeB; rw [hp]
      simp [h1, h2, ih]
    | some p =>
      by_cases hm : p.type == some "middleware"
      · have h1 : routeOf n = none := by unfold routeOf; rw [hp]; simp [hm]
        have h2 : isRouteNodeB n = false := by
          unfold isRouteNodeB; rw [hp]; simp [hm]
        simp [h1, h2, ih]
      · by_cases he : truthyStr p.endpoint
        · have h1 : routeOf n = some (mkRoute n.id p) := by
            unfold routeOf; rw [hp]; simp [hm, he]
          have h2 : isRouteNodeB n = true := by
            unfold isRouteNodeB; rw [hp]; simp [hm, he]
          simp [h1, h2, ih, hg n p hp h2]
        · have h1 : routeOf n = none := by
            unfold routeOf; rw [hp]; simp [hm, he]
          have h2 : isRouteNodeB n = false := by
            unfold isRouteNodeB; rw [hp]; simp [hm, he]
          simp [h1, h2, ih]

/-! ## Claim theorems: C2 (amended), C4, C5, C8 -/

/-- The counterexample node sequence for C2: a validated document whose
second node has `properties.endpoint` present but `type: "middleware"`. -/
def c2Nodes : List Node :=
  [ { id := "1", properties := some { type := some "entry" } }
  , { id := "2",
      properties := some { type := some "middleware",
                           endpoint := some "/x" } } ]

/-- Number of nodes of a sequence whose `properties.endpoint` is present. -/
def endpointPresentCount (ns : List Node) : Nat :=
  ns.countP (fun n =>
    match n.properties with
    | some p => p.endpoint.isSome
    | none => false)

/-- C2 counterexample: a validated sequence with exactly one node whose
`properties.endpoint` is present, for which resolution produces no
RouteRecord at all — the node's `type: "middleware"` routes it to the
middleware branch, contradicting "regardless of that node's type field". -/
theorem C2_counterexample :
    validateConfig { nodes := .arr c2Nodes } = .ok () ∧
    endpointPresentCount c2Nodes = 1 ∧
    (parseNodes c2Nodes).routes = [] := by
  refine ⟨rfl, rfl, ?_⟩
  rfl

/-- C2 (amended): resolution produces exactly one RouteRecord — carrying the
node's id, endpoint and defaulted method — per node whose properties are
present, whose `type` is not `"middleware"`, and whose `endpoint` is present
and non-empty, in first-seen document order, and no record for any other
node. -/
theorem C2_amended (ns : List Node) :
    (parseNodes ns).routes.map (fun r => (r.id, r.endpoint, r.method)) =
      (ns.filter isRouteNodeB).map
        (fun n => (n.id, nodeEndpointText n, nodeMethodText n)) := by
  rw [parseNodes_routes_map (fun r => (r.id, r.endpoint, r.method))
    (fun r => rfl) ns]
  exact filterMap_routeOf_map _ _
    (by
      intro n p hp _
      unfold mkRoute nodeEndpointText nodeMethodText
      rw [hp])
    ns

/-- C4: a document whose `nodes` field is missing or not an array fails with
the ConfigShapeError, and a document whose nodes contain no entry-typed node
fails with the MissingEntryError; in both cases no output text is produced. -/
theorem C4_validation (c : Config) :
    ((c.nodes = .missing ∨ ∃ v, c.nodes = .nonArray v) →
      generateServer c = .error .configShape ∧
        ∀ s, generateServer c ≠ .ok s) ∧
    (∀ ns, c.nodes = .arr ns → (∀ n ∈ ns, isEntryNode n = false) →
      generateServer c = .error .missingEntry ∧
        ∀ s, generateServer c ≠ .ok s) := by
  constructor
  · rintro (h | ⟨v, h⟩) <;>
      · unfold generateServer validateConfig
        rw [h]
        exact ⟨rfl, fun s => by simp⟩
  · intro ns h hnone
    have hany : ns.any isEntryNode = false := by
      simp only [List.any_eq_false]
      intro n hn
      simp [hnone n hn]
    unfold generateServer validateConfig
    rw [h]
    simp [hany]

/-- Witness for C4 at two concrete documents. -/
theorem C4_validation_witness :
    generateServer { nodes := .missing } = .error .configShape ∧
    generateServer { nodes := .arr [] } = .error .missingEntry :=
  ⟨((C4_validation { nodes := .missing }).1 (Or.inl rfl)).1,
   ((C4_validation { nodes := .arr [] }).2 [] rfl (by simp)).1⟩

/-- C5: every produced RouteRecord's `authRequired` is true exactly when the
originating node's `auth_required` is not the explicit boolean `false`
(absent or any other value defaults to true). -/
theorem C5_secure_by_default (ns : List Node) :
    (parseNodes ns).routes.map Route.authRequired =
      (ns.filter isRouteNodeB).map nodeAuthSpec := by
  rw [parseNodes_routes_map Route.authRequired (fun r => rfl) ns]
  exact filterMap_routeOf_map _ _
    (by
      intro n p hp _
      unfold mkRoute nodeAuthSpec
      rw [hp])
    ns

/-- The full pipeline on an already-validated node sequence. -/
def pipelineOutput (ns : List Node) : String :=
  generateServerCode (parseNodes ns)

/-- C8: the resolve-then-emit pipeline is a pure function of the node
sequence — equal inputs give byte-identical output text on any two runs. -/
theorem C8_deterministic (ns1 ns2 : List Node) (h : ns1 = ns2) :
    pipelineOutput ns1 = pipelineOutput ns2 := by rw [h]

/-- Witness for C8 at a concrete input. -/
theorem C8_deterministic_witness :
    pipelineOutput c2Nodes = pipelineOutput c2Nodes :=
  C8_deterministic c2Nodes c2Nodes rfl

/-! ## Message derivation (C9) -/

/-- The fixed resource-name table of the message derivation. -/
def messageTable : List (String × String) :=
  [("login", "Login successful"), ("signup", "Signup successful"),
   ("signout", "Signout successful"), ("user", "User data"),
   ("admin", "Admin data"), ("home", "Welcome to Home Page"),
   ("about", "About us"), ("news", "Latest news"), ("blogs", "Blogs list")]

/-- The spec's description of the message derivation: strip one leading
slash, look the name up in the fixed table, otherwise capitalize the first
character and append the literal word "resource". -/
def specRouteMessage (endpoint : String) : String :=
  let name := if endpoint.startsWith "/" then endpoint.drop 1 else endpoint
  match messageTable.lookup name with
  | some m => m
  | none => (name.take 1).toUpper ++ name.drop 1 ++ " resource"

theorem msg_table_eq (name : String) :
    (if name == "login" then "Login successful"
     else if name == "signup" then "Signup successful"
     else if name == "signout" then "Signout successful"
     else if name == "user" then "User data"
     else if name == "admin" then "Admin data"
     else if name == "home" then "Welcome to Home Page"
     else if name == "about" then "About us"
     else if name == "news" then "Latest news"
     else if name == "blogs" then "Blogs list"
     else (name.take 1).toUpper ++ name.drop 1 ++ " resource") =
      (match messageTable.lookup name with
       | some m => m
       | none => (name.take 1).toUpper ++ name.drop 1 ++ " resource") := by
  simp only [messageTable, List.lookup]
  by_cases h1 : name == "login"
  · simp [h1]
  by_cases h2 : name == "signup"
  · simp [h1, h2]
  by_cases h3 : name == "signout"
  · simp [h1, h2, h3]
  by_cases h4 : name == "user"
  · simp [h1, h2, h3, h4]
  by_cases h5 : name == "admin"
  · simp [h1, h2, h3, h4, h5]
  by_cases h6 : name == "home"
  · simp [h1, h2, h3, h4, h5, h6]
  by_cases h7 : name == "about"
  · simp [h1, h2, h3, h4, h5, h6, h7]
  by_cases h8 : name == "news"
  · simp [h1, h2, h3, h4, h5, h6, h7, h8]
  by_cases h9 : name == "blogs"
  · simp [h1, h2, h3, h4, h5, h6, h7, h8, h9]
  simp [h1, h2, h3, h4, h5, h6, h7, h8, h9]

/-- C9: the route-message derivation is exactly the spec's pure function of
the endpoint — strip one leading slash, fixed table, else capitalize the
first character and append " resource". -/
theorem C9_message_derivation (e : String) :
    generateRouteMessage e = specRouteMessage e :=
  msg_table_eq (if e.startsWith "/" then e.drop 1 else e)

/-- Witness for C9 at concrete endpoints. -/
theorem C9_message_derivation_witness :
    generateRouteMessage "/user" = specRouteMessage "/user" ∧
    generateRouteMessage "/xyz" = specRouteMessage "/xyz" :=
  ⟨C9_message_derivation "/user", C9_message_derivation "/xyz"⟩

/-! ## CORS origin rendering (C6) -/

/-- The claim's wildcard condition: the recorded origin value is, or
contains, the string `"*"`. -/
def wildcardSpec : Option JVal → Bool
  | some (.str s) => s == "*"
  | some (.arr xs) => xs.any isStarStr
  | _ => false

/-- C6: when CORS is enabled the emitted registration splices in the origin
expression; that expression is the bare wildcard literal whenever the
recorded origin is or contains `"*"`, and for any other origin list it is
the literal list of the declared origins. -/
theorem C6_cors_wildcard (pc : ParsedConfig) (h : pc.cors.enabled = true) :
    corsSection pc.cors =
      "app.use(cors(\x7b origin: " ++ originRender pc.cors.origin ++
        " \x7d));\n" ∧
    (wildcardSpec pc.cors.origin = true →
      originRender pc.cors.origin = "\"*\"") ∧
    (∀ xs, pc.cors.origin = some (.arr xs) →
      wildcardSpec pc.cors.origin = false →
      originRender pc.cors.origin =
        "[" ++ String.intercalate "," (JVal.stringifyList xs) ++ "]") := by
  refine ⟨by simp [corsSection, h], ?_, ?_⟩
  · intro hw
    cases ho : pc.cors.origin with
    | none => rw [ho] at hw; simp [wildcardSpec] at hw
    | some v =>
      cases v with
      | str s =>
        rw [ho] at hw
        simp only [wildcardSpec, beq_iff_eq] at hw
        subst hw
        rfl
      | arr xs =>
        rw [ho] at hw
        simp only [wildcardSpec] at hw
        simp [originRender, hw]
      | null => rw [ho] at hw; simp [wildcardSpec] at hw
      | bool b => rw [ho] at hw; simp [wildcardSpec] at hw
      | num n => rw [ho] at hw; simp [wildcardSpec] at hw
  · intro xs ho hw
    rw [ho] at hw
    simp only [wildcardSpec] at hw
    rw [ho]
    simp [originRender, hw, JVal.stringify]

/-- The parsed configuration of a validated document whose only middleware
is a CORS node with `allowed_origins: ["*"]`. -/
def corsPc : ParsedConfig :=
  parseNodes
    [ { id := "1", properties := some { type := some "entry" } }
    , { id := "2",
        properties := some { type := some "middleware",
                             allowed_origins := some (.arr [.str "*"]) } } ]

/-- Witness for C6: `allowed_origins: ["*"]` renders the bare wildcard,
not a one-element list literal. -/
theorem C6_cors_wildcard_witness :
    corsSection corsPc.cors =
      "app.use(cors(\x7b origin: " ++ originRender corsPc.cors.origin ++
        " \x7d));\n" ∧
    originRender corsPc.cors.origin = "\"*\"" :=
  ⟨(C6_cors_wildcard corsPc (by decide)).1,
   (C6_cors_wildcard corsPc (by decide)).2.1 (by decide)⟩

/-! ## Enablement gating (C10) -/

theorem adminMw_notMem (aE lE : Bool) (r : Route) :
    "adminMiddleware" ∉ routeMiddlewares aE false lE r := by
  unfold routeMiddlewares
  by_cases h1 : r.authRequired && aE <;> by_cases h2 : lE <;>
    simp [h1, h2]

theorem authMw_notMem (adE lE : Bool) (r : Route) :
    "authMiddleware" ∉ routeMiddlewares false adE lE r := by
  unfold routeMiddlewares
  by_cases h1 : r.adminRequired && adE <;> by_cases h2 : lE <;>
    simp [h1, h2]

/-- C10: with no admin-required middleware node, `adminAuth.enabled` is
false, no admin middleware definition is emitted and no registration
attaches `adminMiddleware` (even for records whose own `adminRequired` is
true); and `auth.enabled` — the gate for attaching `authMiddleware` — is
true exactly when some middleware node declared `auth_required`, with no
`authMiddleware` attached when it is false. -/
theorem C10_enablement_gating (ns : List Node)
    (h : ∀ n ∈ ns, nodeIsAdminMw n = false) :
    (parseNodes ns).adminAuth.enabled = false ∧
    (if (parseNodes ns).adminAuth.enabled then adminMiddlewareDef else "")
      = "" ∧
    (∀ r : Route, "adminMiddleware" ∉
      routeMiddlewares (parseNodes ns).auth.enabled
        (parseNodes ns).adminAuth.enabled (parseNodes ns).logging.enabled
        r) ∧
    ((parseNodes ns).auth.enabled = true ↔
      ∃ n ∈ ns, nodeIsAuthMw n = true) ∧
    ((parseNodes ns).auth.enabled = false →
      ∀ r : Route, "authMiddleware" ∉
        routeMiddlewares (parseNodes ns).auth.enabled
          (parseNodes ns).adminAuth.enabled
          (parseNodes ns).logging.enabled r) := by
  have hA : (parseNodes ns).adminAuth.enabled = false := by
    rw [parseNodes_adminEnabled]
    simp only [List.any_eq_false]
    intro n hn
    simp [h n hn]
  refine ⟨hA, by rw [hA]; rfl, ?_, ?_, ?_⟩
  · intro r
    rw [hA]
    exact adminMw_notMem _ _ r
  · rw [parseNodes_auth]
    simp [List.any_eq_true]
  · intro hAu r
    rw [hAu]
    exact authMw_notMem _ _ r

/-- The concrete node sequence for the C10 witness: an entry node and a
route node whose own `admin_required` is true, but no middleware node. -/
def c10Nodes : List Node :=
  [ { id := "1", properties := some { type := some "entry" } }
  , { id := "2",
      properties := some { endpoint := some "/a",
                           admin_required := some (.bool true) } } ]

/-- Witness for C10: the route record keeps `adminRequired = true`, yet
admin auth stays disabled and no admin middleware is attached. -/
theorem C10_enablement_gating_witness :
    (parseNodes c10Nodes).adminAuth.enabled = false ∧
    ((parseNodes c10Nodes).auth.enabled = true ↔
      ∃ n ∈ c10Nodes, nodeIsAuthMw n = true) ∧
    (parseNodes c10Nodes).routes.map Route.adminRequired = [true] :=
  ⟨(C10_enablement_gating c10Nodes (by decide)).1,
   (C10_enablement_gating c10Nodes (by decide)).2.2.2.1, rfl⟩

/-! ## Inert-node tolerance (C7) -/

theorem pass2Target_dangling (nodes : List Node) (st : ParsedConfig)
    (tid : JVal) (h : nodes.find? (fun m => jvalEqStr tid m.id) = none) :
    pass2Target nodes st tid = st := by
  unfold pass2Target
  rw [h]

theorem foldl_id {σ α : Type} (g : σ → α → σ) (l : List α) (s : σ)
    (h : ∀ (sa : σ) (a : α), a ∈ l → g sa a = sa) : l.foldl g s = s := by
  induction l generalizing s with
  | nil => rfl
  | cons a l ih =>
    rw [List.foldl_cons, h s a (List.mem_cons_self a l)]
    exact ih s (fun sa b hb => h sa b (List.mem_cons_of_mem a hb))

/-- The effective target-id list of a node. -/
def nodeTargetIds (n : Node) : List JVal :=
  match n.target with
  | none => []
  | some t => targetIds t

/-- C7: resolution is a total function and treats anomalous nodes as inert:
a node without properties changes nothing in either pass, and a node all of
whose target ids match no node in the sequence changes nothing in the
second pass. -/
theorem C7_inert_nodes (ns : List Node) (st : ParsedConfig) (n : Node) :
    (n.properties = none →
      pass1Step st n = st ∧ pass2Step ns st n = st) ∧
    ((∀ tid ∈ nodeTargetIds n,
        ns.find? (fun m => jvalEqStr tid m.id) = none) →
      pass2Step ns st n = st) := by
  constructor
  · intro h
    constructor
    · unfold pass1Step; rw [h]
    · unfold pass2Step; rw [h]
  · intro h
    unfold pass2Step
    cases hp : n.properties with
    | none => rfl
    | some p =>
      by_cases hm : p.type == some "middleware"
      · simp only [hm, if_true]
        by_cases hg : truthyOpt p.admin_required && truthyOpt n.target
        · simp only [hg, if_true]
          cases ht : n.target with
          | none => rfl
          | some t =>
            apply foldl_id
            intro sa tid htid
            apply pass2Target_dangling
            apply h
            unfold nodeTargetIds
            rw [ht]
            exact htid
        · simp [hg]
      · simp [hm]

/-- Witness for C7 at a propertyless node and a dangling-target middleware
node. -/
theorem C7_inert_nodes_witness :
    (pass1Step initConfig { id := "9" } = initConfig ∧
      pass2Step c10Nodes initConfig { id := "9" } = initConfig) ∧
    pass2Step c10Nodes initConfig
      { id := "8", target := some (.str "zz"),
        properties := some { type := some "middleware",
                             admin_required := some (.bool true) } }
      = initConfig :=
  ⟨(C7_inert_nodes c10Nodes initConfig { id := "9" }).1 rfl,
   (C7_inert_nodes c10Nodes initConfig _).2 (by
     intro tid htid
     simp only [nodeTargetIds, targetIds, List.mem_singleton] at htid
     subst htid
     rfl)⟩

/-! ## Emitter shape (C3) -/

/-- The middleware names C3 claims are attached: gated by the per-route
flags (and logging by its enabled flag) alone, without the auth/admin
enabled flags. -/
def claimMiddlewares (loggingEnabled : Bool) (r : Route) : List String :=
  (if r.authRequired then ["authMiddleware"] else []) ++
  (if r.adminRequired then ["adminMiddleware"] else []) ++
  (if loggingEnabled then ["loggingMiddleware"] else [])

/-- A validated sequence with one route node (no auth middleware node). -/
def c3Nodes : List Node :=
  [ { id := "1", properties := some { type := some "entry" } }
  , { id := "2", properties := some { endpoint := some "/x" } } ]

/-- C3 counterexample: the resolved model has one route record with
`authRequired = true`, so the claim's conditions attach `authMiddleware`;
the emitter attaches nothing because global auth is not enabled, and the
emitted registration carries an empty middleware fragment. -/
theorem C3_counterexample :
    (parseNodes c3Nodes).routes.map Route.authRequired = [true] ∧
    (parseNodes c3Nodes).routes.map
      (claimMiddlewares (parseNodes c3Nodes).logging.enabled) =
      [["authMiddleware"]] ∧
    (parseNodes c3Nodes).routes.map
      (routeMiddlewares (parseNodes c3Nodes).auth.enabled
        (parseNodes c3Nodes).adminAuth.enabled
        (parseNodes c3Nodes).logging.enabled) = [[]] ∧
    generateServerCode (parseNodes c3Nodes) =
      emitHeader (parseNodes c3Nodes) ++
        routeLineTemplate
          { id := "2", endpoint := "/x", method := "GET",
            authRequired := true, adminRequired := false } "" ++
        listenSection :=
  ⟨rfl, rfl, rfl, rfl⟩

theorem mwListText_eq (aE adE lE : Bool) (r : Route) :
    mwListText (routeMiddlewares aE adE lE r) =
      (if r.authRequired && aE then "authMiddleware, " else "") ++
      (if r.adminRequired && adE then "adminMiddleware, " else "") ++
      (if lE then "loggingMiddleware, " else "") := by
  unfold routeMiddlewares mwListText
  by_cases h1 : r.authRequired && aE <;>
    by_cases h2 : r.adminRequired && adE <;>
      by_cases h3 : lE <;>
        simp [h1, h2, h3] <;> decide

theorem routeCode_eq (aE adE lE : Bool) (r : Route) :
    routeCode aE adE lE r =
      "app." ++ r.method.toLower ++ "(\"" ++ r.endpoint ++ "\", " ++
      ((if r.authRequired && aE then "authMiddleware, " else "") ++
       (if r.adminRequired && adE then "adminMiddleware, " else "") ++
       (if lE then "loggingMiddleware, " else "")) ++
      "(req, res) => res.json(\x7b message: \"" ++
      generateRouteMessage r.endpoint ++ "\" \x7d));\n" := by
  unfold routeCode routeLineTemplate
  rw [mwListText_eq]

/-- C3 (amended): one registration statement per RouteRecord, in record
order, with lower-cased method and the middleware names spliced in
left-to-right as `authMiddleware` when the record's `authRequired` holds
AND auth is enabled, then `adminMiddleware` when `adminRequired` holds AND
admin auth is enabled, then `loggingMiddleware` when logging is enabled,
followed by the JSON handler with the derived message text. -/
theorem C3_amended (pc : ParsedConfig) :
    generateServerCode pc =
      emitHeader pc ++
      String.join (pc.routes.map (fun r =>
        "app." ++ r.method.toLower ++ "(\"" ++ r.endpoint ++ "\", " ++
        ((if r.authRequired && pc.auth.enabled then "authMiddleware, "
          else "") ++
         (if r.adminRequired && pc.adminAuth.enabled then "adminMiddleware, "
          else "") ++
         (if pc.logging.enabled then "loggingMiddleware, " else "")) ++
        "(req, res) => res.json(\x7b message: \"" ++
        generateRouteMessage r.endpoint ++ "\" \x7d));\n")) ++
      listenSection := by
  unfold generateServerCode
  congr 2
  apply congrArg String.join
  apply List.map_congr_left
  intro r _
  exact routeCode_eq pc.auth.enabled pc.adminAuth.enabled
    pc.logging.enabled r

/-! ## Admin propagation (C1): basic lemmas -/

theorem routeOf_eq_some (n : Node) (r : Route) (h : routeOf n = some r) :
    ∃ p, n.properties = some p ∧ (p.type == some "middleware") = false ∧
      truthyStr p.endpoint = true ∧ r = mkRoute n.id p := by
  unfold routeOf at h
  split at h
  · cases h
  · next p hp =>
    split at h
    · cases h
    · next hm =>
      split at h
      · next he =>
        exact ⟨p, hp, by simpa using hm, he, (Option.some_inj.mp h).symm⟩
      · cases h

theorem routeOf_id (n : Node) (r : Route) (h : routeOf n = some r) :
    r.id = n.id := by
  obtain ⟨p, _, _, _, hr⟩ := routeOf_eq_some n r h
  rw [hr]
  rfl

theorem routeOf_admin (n : Node) (r : Route) (h : routeOf n = some r) :
    r.adminRequired = ownAdminTruthy n := by
  obtain ⟨p, hp, _, _, hr⟩ := routeOf_eq_some n r h
  rw [hr]
  unfold mkRoute ownAdminTruthy
  rw [hp]

theorem route_set_admin_self (r : Route) (h : r.adminRequired = true) :
    { r with adminRequired := true } = r := by
  cases r
  simp_all

theorem markAdmin_mem_src (tid : JVal) (r' : Route) :
    ∀ rs : List Route, r' ∈ (markAdmin rs tid).1 →
      r' ∈ rs ∨ ∃ r ∈ rs, jvalEqStr tid r.id = true ∧
        r' = { r with adminRequired := true } := by
  intro rs
  induction rs with
  | nil => intro h; exact absurd h (by simp [markAdmin])
  | cons a rs ih =>
    intro h
    unfold markAdmin at h
    by_cases hj : jvalEqStr tid a.id
    · rw [if_pos hj] at h
      rcases List.mem_cons.mp h with h | h
      · exact Or.inr ⟨a, List.mem_cons_self a rs, hj, h⟩
      · exact Or.inl (List.mem_cons_of_mem a h)
    · rw [if_neg hj] at h
      rcases List.mem_cons.mp h with h | h
      · exact Or.inl (h ▸ List.mem_cons_self a rs)
      · rcases ih h with h' | ⟨r, hr, hjr, he⟩
        · exact Or.inl (List.mem_cons_of_mem a h')
        · exact Or.inr ⟨r, List.mem_cons_of_mem a hr, hjr, he⟩

theorem markAdmin_keeps (tid : JVal) (r : Route) (ht : r.adminRequired = true) :
    ∀ rs : List Route, r ∈ rs → r ∈ (markAdmin rs tid).1 := by
  intro rs
  induction rs with
  | nil => intro h; cases h
  | cons a rs ih =>
    intro h
    unfold markAdmin
    by_cases hj : jvalEqStr tid a.id
    · rw [if_pos hj]
      rcases List.mem_cons.mp h with rfl | hmem
      · exact route_set_admin_self r ht ▸ List.mem_cons_self _ _
      · exact List.mem_cons_of_mem _ hmem
    · rw [if_neg hj]
      rcases List.mem_cons.mp h with rfl | hmem
      · exact List.mem_cons_self _ _
      · exact List.mem_cons_of_mem _ (ih hmem)

theorem markAdmin_found (i : String) (r : Route) (hi : r.id = i) :
    ∀ rs : List Route, r ∈ rs → ((rs.map Route.id).Nodup) →
      (markAdmin rs (.str i)).2 = some r.endpoint ∧
      { r with adminRequired := true } ∈ (markAdmin rs (.str i)).1 := by
  intro rs
  induction rs with
  | nil => intro h; cases h
  | cons a rs ih =>
    intro h hnd
    rcases List.mem_cons.mp h with rfl | hmem
    · have hj : jvalEqStr (.str i) r.id = true := by
        simp [jvalEqStr, hi]
      unfold markAdmin
      rw [if_pos hj]
      exact ⟨rfl, List.mem_cons_self _ _⟩
    · rw [List.map_cons, List.nodup_cons] at hnd
      obtain ⟨hnotin, hnd2⟩ := hnd
      have hane : a.id ≠ i := by
        intro he
        exact hnotin (he ▸ hi ▸ List.mem_map_of_mem Route.id hmem)
      have hj : jvalEqStr (.str i) a.id = false := by
        simp [jvalEqStr]
        exact fun hc => hane hc.symm
      unfold markAdmin
      rw [if_neg (by simp [hj])]
      obtain ⟨h1, h2⟩ := ih hmem hnd2
      exact ⟨h1, List.mem_cons_of_mem a h2⟩

theorem find_unique_id (i : String) (n₀ : Node) (hi : n₀.id = i) :
    ∀ ns : List Node, n₀ ∈ ns → ((ns.map Node.id).Nodup) →
      ns.find? (fun m => jvalEqStr (.str i) m.id) = some n₀ := by
  intro ns
  induction ns with
  | nil => intro h; cases h
  | cons a ns ih =>
    intro h hnd
    rcases List.mem_cons.mp h with rfl | hmem
    · have hj : jvalEqStr (.str i) n₀.id = true := by simp [jvalEqStr, hi]
      rw [List.find?_cons]
      simp [hj]
    · rw [List.map_cons, List.nodup_cons] at hnd
      obtain ⟨hnotin, hnd2⟩ := hnd
      have hane : a.id ≠ i := by
        intro he
        exact hnotin (he ▸ hi ▸ List.mem_map_of_mem Node.id hmem)
      have hj : jvalEqStr (.str i) a.id = false := by
        simp [jvalEqStr]
        exact fun hc => hane hc.symm
      rw [List.find?_cons]
      simp only [hj]
      exact ih hmem hnd2

theorem filterMap_routeOf_ids_sublist (ns : List Node) :
    List.Sublist ((ns.filterMap routeOf).map Route.id) (ns.map Node.id) := by
  induction ns with
  | nil => simp
  | cons n ns ih =>
    rw [List.filterMap_cons, List.map_cons]
    cases hro : routeOf n with
    | none => exact ih.cons n.id
    | some r =>
      rw [List.map_cons, routeOf_id n r hro]
      exact ih.cons₂ n.id

/-! ## Admin propagation (C1): soundness -/

/-- The claim's justification for `adminRequired = true` on the record with
route id `i`: the route node's own `admin_required` was truthy, or some
admin-required middleware node lists `i` in its target. -/
def adminJustified (ns : List Node) (i : String) : Prop :=
  (∃ n ∈ ns, (routeOf n).isSome = true ∧ n.id = i ∧ ownAdminTruthy n = true) ∨
  (∃ m ∈ ns, nodeIsAdminMw m = true ∧ listsInTarget m i = true)

theorem pass2Target_inv (nodes : List Node) (st : ParsedConfig) (tid : JVal)
    (P : String → Prop) (hP : ∀ i, jvalEqStr tid i = true → P i)
    (hInv : ∀ r ∈ st.routes, r.adminRequired = true → P r.id) :
    ∀ r' ∈ (pass2Target nodes st tid).routes, r'.adminRequired = true →
      P r'.id := by
  intro r' hr' hadm
  unfold pass2Target at hr'
  split at hr'
  · exact hInv r' hr' hadm
  · split at hr'
    · exact hInv r' hr' hadm
    · split at hr'
      · split at hr'
        · next rs ep heq =>
          have hrs : r' ∈ (markAdmin st.routes tid).1 := by
            have h1 : rs = (markAdmin st.routes tid).1 := by rw [heq]
            rw [← h1]
            exact hr'
          rcases markAdmin_mem_src tid r' st.routes hrs with h | ⟨r, hr, hj, he⟩
          · exact hInv r' h hadm
          · subst he
            exact hP r.id hj
        · exact hInv r' hr' hadm
      · exact hInv r' hr' hadm

theorem pass2Step_inv (ns : List Node) (st : ParsedConfig) (m : Node)
    (hm : m ∈ ns)
    (hInv : ∀ r ∈ st.routes, r.adminRequired = true → adminJustified ns r.id) :
    ∀ r' ∈ (pass2Step ns st m).routes, r'.adminRequired = true →
      adminJustified ns r'.id := by
  unfold pass2Step
  split
  · exact hInv
  · next p hp =>
    split
    · next hmw =>
      split
      · next hg =>
        split
        · next t ht =>
          refine foldl_inv (pass2Target ns)
            (fun s => ∀ r' ∈ s.routes, r'.adminRequired = true →
              adminJustified ns r'.id)
            (fun tid => tid ∈ targetIds t) (targetIds t)
            (fun a ha => ha) ?_ st hInv
          intro s tid htid hs
          refine pass2Target_inv ns s tid (adminJustified ns) ?_ hs
          intro i hji
          right
          refine ⟨m, hm, ?_, ?_⟩
          · unfold nodeIsAdminMw
            rw [hp]
            simp only [hmw, Bool.true_and]
            have hg2 := hg
            simp only [Bool.and_eq_true] at hg2
            exact hg2.1
          · unfold listsInTarget
            rw [ht]
            exact List.any_eq_true.mpr ⟨tid, htid, hji⟩
        · exact hInv
      · exact hInv
    · exact hInv

theorem parseNodes_admin_sound (ns : List Node) :
    ∀ r ∈ (parseNodes ns).routes, r.adminRequired = true →
      adminJustified ns r.id := by
  unfold parseNodes
  refine foldl_inv (pass2Step ns)
    (fun s => ∀ r ∈ s.routes, r.adminRequired = true → adminJustified ns r.id)
    (fun m => m ∈ ns) ns (fun a ha => ha)
    (fun s m hm hs => pass2Step_inv ns s m hm hs)
    (ns.foldl pass1Step initConfig) ?_
  intro r hr hadm
  rw [pass1_routes] at hr
  simp only [initConfig, List.nil_append] at hr
  rcases List.mem_filterMap.mp hr with ⟨n, hn, hro⟩
  left
  refine ⟨n, hn, by rw [hro]; rfl, (routeOf_id n r hro).symm ▸ rfl, ?_⟩
  rw [← routeOf_admin n r hro]
  exact hadm

/-! ## Admin propagation (C1): completeness -/

theorem jvalEqStr_eq (v : JVal) (i : String) (h : jvalEqStr v i = true) :
    v = .str i := by
  cases v with
  | str s =>
    simp only [jvalEqStr, beq_iff_eq] at h
    rw [h]
  | null => cases h
  | bool b => cases h
  | num n => cases h
  | arr xs => cases h

theorem pass2Target_keeps (nodes : List Node) (st : ParsedConfig)
    (tid : JVal) (r : Route) (hr : r ∈ st.routes)
    (ht : r.adminRequired = true) :
    r ∈ (pass2Target nodes st tid).routes := by
  unfold pass2Target
  split
  · exact hr
  · split
    · exact hr
    · split
      · split
        · next rs ep heq =>
          show r ∈ rs
          have h1 : rs = (markAdmin st.routes tid).1 := by rw [heq]
          rw [h1]
          exact markAdmin_keeps tid r ht st.routes hr
        · exact hr
      · exact hr

theorem pass2Step_keeps (ns : List Node) (st : ParsedConfig) (n : Node)
    (r : Route) (hr : r ∈ st.routes) (ht : r.adminRequired = true) :
    r ∈ (pass2Step ns st n).routes := by
  unfold pass2Step
  split
  · exact hr
  · split
    · split
      · split
        · next t _ =>
          exact foldl_inv (pass2Target ns) (fun s => r ∈ s.routes)
            (fun _ => True) (targetIds t) (fun _ _ => trivial)
            (fun s a _ h => pass2Target_keeps ns s a r h ht) st hr
        · exact hr
      · exact hr
    · exact hr

/-- Establishment through a fold: an invariant `P` holds up to the chosen
element, the element's step establishes `Q` from `P`, and `Q` persists. -/
theorem foldl_estab {σ α : Type} (g : σ → α → σ) (P Q : σ → Prop)
    (l : List α) (a : α) (ha : a ∈ l)
    (hP : ∀ s b, P s → P (g s b))
    (hQ : ∀ s b, Q s → Q (g s b))
    (hset : ∀ s, P s → Q (g s a)) :
    ∀ s, P s → Q (l.foldl g s) := by
  induction l with
  | nil => cases ha
  | cons b l ih =>
    intro s hs
    rcases List.mem_cons.mp ha with rfl | hmem
    · rw [List.foldl_cons]
      exact foldl_inv g Q (fun _ => True) l (fun _ _ => trivial)
        (fun s' b' _ h => hQ s' b' h) (g s a) (hset s hs)
    · rw [List.foldl_cons]
      exact ih hmem (g s b) (hP s b hs)

theorem pass2Target_marks (ns : List Node) (st : ParsedConfig) (i : String)
    (n₀ : Node) (hfind : ns.find? (fun m => jvalEqStr (.str i) m.id) = some n₀)
    (p₀ : Props) (hp₀ : n₀.properties = some p₀)
    (he₀ : truthyStr p₀.endpoint = true)
    (r : Route) (hr : r ∈ st.routes) (hi : r.id = i)
    (hnd : (st.routes.map Route.id).Nodup) :
    { r with adminRequired := true } ∈ (pass2Target ns st (.str i)).routes ∧
    r.endpoint ∈ (pass2Target ns st (.str i)).adminAuth.routes := by
  obtain ⟨hsnd, hmem⟩ := markAdmin_found i r hi st.routes hr hnd
  unfold pass2Target
  split
  · next hnone => rw [hfind] at hnone; cases hnone
  · next tn hsome =>
    have htn : n₀ = tn := Option.some_inj.mp (hfind.symm.trans hsome)
    subst htn
    split
    · next hnone2 => rw [hp₀] at hnone2; cases hnone2
    · next tp hsome2 =>
      have htp : p₀ = tp := Option.some_inj.mp (hp₀.symm.trans hsome2)
      subst htp
      split
      · split
        · next rs ep heq2 =>
          have h2 : (markAdmin st.routes (.str i)).2 = some ep := by
            rw [heq2]
          have hep : ep = r.endpoint :=
            Option.some_inj.mp (h2.symm.trans hsnd)
          subst hep
          constructor
          · show { r with adminRequired := true } ∈ rs
            have h1 : rs = (markAdmin st.routes (.str i)).1 := by rw [heq2]
            rw [h1]
            exact hmem
          · show r.endpoint ∈ st.adminAuth.routes ++ [r.endpoint]
            exact List.mem_append_right _ (List.mem_singleton.mpr rfl)
        · next fst heq2 =>
          have h2 : (markAdmin st.routes (.str i)).2 = none := by rw [heq2]
          rw [hsnd] at h2
          cases h2
      · next hne => exact absurd he₀ hne

/-- The admin-insensitive key of a route record. -/
def routeKey (r : Route) : String × String := (r.id, r.endpoint)

theorem keys_to_ids (rs l : List Route)
    (h : rs.map routeKey = l.map routeKey) :
    rs.map Route.id = l.map Route.id := by
  have h1 := congrArg (List.map Prod.fst) h
  rw [List.map_map, List.map_map] at h1
  exact h1

theorem parseNodes_admin_complete (ns : List Node)
    (hnd : (ns.map Node.id).Nodup) (hne : ∀ n ∈ ns, n.id ≠ "")
    (n₀ : Node) (hn₀ : n₀ ∈ ns) (r₀ : Route) (hr₀ : routeOf n₀ = some r₀)
    (m : Node) (hm : m ∈ ns) (hmw : nodeIsAdminMw m = true)
    (hlt : listsInTarget m n₀.id = true) :
    (∃ r' ∈ (parseNodes ns).routes, r'.id = n₀.id ∧
      r'.endpoint = r₀.endpoint ∧ r'.adminRequired = true) ∧
    r₀.endpoint ∈ (parseNodes ns).adminAuth.routes := by
  have hmfacts : ∃ p, m.properties = some p ∧
      (p.type == some "middleware") = true ∧
      truthyOpt p.admin_required = true := by
    unfold nodeIsAdminMw at hmw
    cases hpm : m.properties with
    | none => rw [hpm] at hmw; cases hmw
    | some p =>
      rw [hpm] at hmw
      simp only [Bool.and_eq_true] at hmw
      exact ⟨p, rfl, hmw.1, hmw.2⟩
  have hlt2 : ∃ t, m.target = some t ∧ (JVal.str n₀.id) ∈ targetIds t := by
    unfold listsInTarget at hlt
    cases hmt : m.target with
    | none => rw [hmt] at hlt; cases hlt
    | some t =>
      rw [hmt] at hlt
      rcases List.any_eq_true.mp hlt with ⟨tid, htid, hji⟩
      exact ⟨t, rfl, jvalEqStr_eq tid n₀.id hji ▸ htid⟩
  obtain ⟨t, hmt, htid⟩ := hlt2
  have hne₀ : n₀.id ≠ "" := hne n₀ hn₀
  have htt : truthyOpt m.target = true := by
    rw [hmt]
    show JVal.truthy t = true
    cases t with
    | arr xs => rfl
    | str s =>
      simp only [targetIds, List.mem_singleton] at htid
      cases htid
      simp only [JVal.truthy, bne_iff_ne]
      exact hne₀
    | null => simp [targetIds] at htid
    | bool b => simp [targetIds] at htid
    | num k => simp [targetIds] at htid
  have hida : r₀.id = n₀.id := routeOf_id n₀ r₀ hr₀
  have hr₀mem : r₀ ∈ ns.filterMap routeOf :=
    List.mem_filterMap.mpr ⟨n₀, hn₀, hr₀⟩
  obtain ⟨p₀, hp₀, hmw₀, he₀, hmk₀⟩ := routeOf_eq_some n₀ r₀ hr₀
  have he₀ep : truthyStr p₀.endpoint = true := he₀
  have hfind := find_unique_id n₀.id n₀ rfl ns hn₀ hnd
  -- a state whose route keys match the first pass has a record for n₀
  have hPder : ∀ s : ParsedConfig,
      s.routes.map routeKey = (ns.filterMap routeOf).map routeKey →
      ∃ r ∈ s.routes, r.id = n₀.id ∧ r.endpoint = r₀.endpoint ∧
        (s.routes.map Route.id).Nodup := by
    intro s hPs
    have hkey : routeKey r₀ ∈ s.routes.map routeKey := by
      rw [hPs]
      exact List.mem_map_of_mem routeKey hr₀mem
    rcases List.mem_map.mp hkey with ⟨r, hrmem, hkeq⟩
    have hndr : (s.routes.map Route.id).Nodup := by
      rw [keys_to_ids _ _ hPs]
      exact List.Nodup.sublist (filterMap_routeOf_ids_sublist ns) hnd
    refine ⟨r, hrmem, ?_, congrArg Prod.snd hkeq, hndr⟩
    have h1 : r.id = r₀.id := congrArg Prod.fst hkeq
    rw [h1, hida]
  -- establishing step at the middleware node m
  have hinner : ∀ s' : ParsedConfig,
      s'.routes.map routeKey = (ns.filterMap routeOf).map routeKey →
      (∃ r' ∈ (pass2Target ns s' (.str n₀.id)).routes, r'.id = n₀.id ∧
        r'.endpoint = r₀.endpoint ∧ r'.adminRequired = true) ∧
      r₀.endpoint ∈ (pass2Target ns s' (.str n₀.id)).adminAuth.routes := by
    intro s' hPs'
    obtain ⟨r, hrmem, hrid, hrep, hndr⟩ := hPder s' hPs'
    obtain ⟨hmm, hme⟩ := pass2Target_marks ns s' n₀.id n₀ hfind p₀ hp₀
      he₀ep r hrmem hrid hndr
    refine ⟨⟨{ r with adminRequired := true }, hmm, hrid, hrep, rfl⟩, ?_⟩
    rw [← hrep]
    exact hme
  have hset : ∀ s : ParsedConfig,
      s.routes.map routeKey = (ns.filterMap routeOf).map routeKey →
      (∃ r' ∈ (pass2Step ns s m).routes, r'.id = n₀.id ∧
        r'.endpoint = r₀.endpoint ∧ r'.adminRequired = true) ∧
      r₀.endpoint ∈ (pass2Step ns s m).adminAuth.routes := by
    intro s hPs
    obtain ⟨p, hpm, hmwt, hat⟩ := hmfacts
    unfold pass2Step
    split
    · next hnone => rw [hpm] at hnone; cases hnone
    · next p' hsome =>
      have hpp : p = p' := Option.some_inj.mp (hpm.symm.trans hsome)
      subst hpp
      split
      · split
        · next hg =>
          split
          · next t' hmt' =>
            have htt' : t = t' := Option.some_inj.mp (hmt.symm.trans hmt')
            subst htt'
            refine foldl_estab (pass2Target ns)
              (fun s2 => s2.routes.map routeKey =
                (ns.filterMap routeOf).map routeKey)
              (fun s2 => (∃ r' ∈ s2.routes, r'.id = n₀.id ∧
                r'.endpoint = r₀.endpoint ∧ r'.adminRequired = true) ∧
                r₀.endpoint ∈ s2.adminAuth.routes)
              (targetIds t) (.str n₀.id) htid ?_ ?_ hinner s hPs
            · intro s2 b h
              rw [pass2Target_routes_map routeKey (fun r => rfl) ns s2 b]
              exact h
            · intro s2 b h
              obtain ⟨⟨r', hr', h1, h2, h3⟩, h4⟩ := h
              exact ⟨⟨r', pass2Target_keeps ns s2 b r' hr' h3, h1, h2, h3⟩,
                pass2Target_adminRoutes_mono ns s2 b _ h4⟩
          · next hmt' => rw [hmt] at hmt'; cases hmt'
        · next hg =>
          exact absurd (by rw [hat, htt]; rfl) hg
      · next hmw' => exact absurd hmwt hmw'
  -- run the outer fold
  unfold parseNodes
  refine foldl_estab (pass2Step ns)
    (fun s => s.routes.map routeKey = (ns.filterMap routeOf).map routeKey)
    (fun s => (∃ r' ∈ s.routes, r'.id = n₀.id ∧
      r'.endpoint = r₀.endpoint ∧ r'.adminRequired = true) ∧
      r₀.endpoint ∈ s.adminAuth.routes)
    ns m hm ?_ ?_ hset (ns.foldl pass1Step initConfig) ?_
  · intro s b h
    rw [pass2Step_routes_map routeKey (fun r => rfl) ns s b]
    exact h
  · intro s b h
    obtain ⟨⟨r', hr', h1, h2, h3⟩, h4⟩ := h
    exact ⟨⟨r', pass2Step_keeps ns s b r' hr' h3, h1, h2, h3⟩,
      pass2Step_adminRoutes_mono ns s b _ h4⟩
  · show (List.foldl pass1Step initConfig ns).routes.map routeKey =
      (ns.filterMap routeOf).map routeKey
    rw [pass1_routes]
    simp [initConfig]

/-! ## C1: counterexample, amended statement, witness -/

/-- The counterexample node sequence for C1: two nodes share id "5"; the
admin middleware targets "5", but `nodes.find` hits the endpoint-less exit
node first, so propagation is skipped. -/
def c1Nodes : List Node :=
  [ { id := "1", properties := some { type := some "entry" } }
  , { id := "2", target := some (.arr [.str "5"]),
      properties := some { type := some "middleware",
                           admin_required := some (.bool true) } }
  , { id := "5", properties := some { type := some "exit" } }
  , { id := "5", properties := some { endpoint := some "/secret" } } ]

/-- C1 counterexample: a validated sequence in which an admin-required
middleware node lists the produced route's id in its target, yet the route
record ends with `adminRequired = false` and adminAuth's route set stays
empty — refuting the claimed iff over all validated sequences. -/
theorem C1_counterexample :
    validateConfig { nodes := .arr c1Nodes } = .ok () ∧
    c1Nodes.any (fun m => nodeIsAdminMw m && listsInTarget m "5") = true ∧
    (parseNodes c1Nodes).routes.map (fun r => (r.id, r.adminRequired)) =
      [("5", false)] ∧
    (parseNodes c1Nodes).adminAuth.routes = [] :=
  ⟨rfl, rfl, rfl, rfl⟩

/-- C1 (amended): for node sequences with unique, non-empty ids, a produced
RouteRecord has `adminRequired = true` iff its node's own `admin_required`
was truthy or some admin-required middleware node lists the route's id in
its target; and a route so targeted also has its endpoint added to
adminAuth's route set. -/
theorem C1_admin_propagation (ns : List Node)
    (hnd : (ns.map Node.id).Nodup) (hne : ∀ n ∈ ns, n.id ≠ "")
    (r : Route) (hr : r ∈ (parseNodes ns).routes) :
    (r.adminRequired = true ↔
      ((∃ n ∈ ns, (routeOf n).isSome = true ∧ n.id = r.id ∧
         ownAdminTruthy n = true) ∨
       (∃ m ∈ ns, nodeIsAdminMw m = true ∧ listsInTarget m r.id = true))) ∧
    ((∃ m ∈ ns, nodeIsAdminMw m = true ∧ listsInTarget m r.id = true) →
      r.endpoint ∈ (parseNodes ns).adminAuth.routes) := by
  have hkeys : (parseNodes ns).routes.map routeKey =
      (ns.filterMap routeOf).map routeKey :=
    parseNodes_routes_map routeKey (fun r => rfl) ns
  have hndr : ((parseNodes ns).routes.map Route.id).Nodup := by
    rw [keys_to_ids _ _ hkeys]
    exact List.Nodup.sublist (filterMap_routeOf_ids_sublist ns) hnd
  have hkey : routeKey r ∈ (ns.filterMap routeOf).map routeKey := by
    rw [← hkeys]
    exact List.mem_map_of_mem routeKey hr
  rcases List.mem_map.mp hkey with ⟨r₀, hr₀mem, hk₀⟩
  rcases List.mem_filterMap.mp hr₀mem with ⟨n₀, hn₀, hro₀⟩
  have hid₀ : r₀.id = r.id := congrArg Prod.fst hk₀
  have hep₀ : r₀.endpoint = r.endpoint := congrArg Prod.snd hk₀
  have hidn₀ : n₀.id = r.id := (routeOf_id n₀ r₀ hro₀) ▸ hid₀
  have hcomplete : (∃ m ∈ ns, nodeIsAdminMw m = true ∧
      listsInTarget m r.id = true) →
      r.adminRequired = true ∧
        r.endpoint ∈ (parseNodes ns).adminAuth.routes := by
    rintro ⟨m, hm, hmw, hlt⟩
    obtain ⟨⟨r', hr', hid', hep', hadm'⟩, hmem'⟩ :=
      parseNodes_admin_complete ns hnd hne n₀ hn₀ r₀ hro₀ m hm hmw
        (hidn₀ ▸ hlt)
    have hrr : r' = r := by
      apply List.inj_on_of_nodup_map hndr hr' hr
      rw [hid', hidn₀]
    constructor
    · rw [← hrr]; exact hadm'
    · rw [← hep₀]; exact hmem'
  constructor
  · constructor
    · intro hadm
      exact parseNodes_admin_sound ns r hr hadm
    · rintro (⟨n, hn, hsome, hid, hown⟩ | htgt)
      · -- own admin_required was truthy
        cases hron : routeOf n with
        | none => rw [hron] at hsome; cases hsome
        | some rn =>
          have hadm : rn.adminRequired = true := by
            rw [routeOf_admin n rn hron]
            exact hown
          have hfinal : rn ∈ (parseNodes ns).routes := by
            unfold parseNodes
            refine foldl_inv (pass2Step ns) (fun s => rn ∈ s.routes)
              (fun _ => True) ns (fun _ _ => trivial)
              (fun s b _ h => pass2Step_keeps ns s b rn h hadm) _ ?_
            show rn ∈ (List.foldl pass1Step initConfig ns).routes
            rw [pass1_routes]
            simp only [initConfig, List.nil_append]
            exact List.mem_filterMap.mpr ⟨n, hn, hron⟩
          have hrn : rn = r := by
            apply List.inj_on_of_nodup_map hndr hfinal hr
            rw [routeOf_id n rn hron, hid]
          rw [← hrn]
          exact hadm
      · exact (hcomplete htgt).1
  · intro htgt
    exact (hcomplete htgt).2

/-- The admin-propagation scenario: a middleware node with
`target: ["5"]` and a route node `5` with `/admin` and no own
`admin_required`. -/
def adminEntryNode : Node := { id := "1", properties := some { type := some "entry" } }

/-- The admin middleware node of the scenario. -/
def adminMwNode : Node :=
  { id := "4", target := some (.arr [.str "5"]),
    properties := some { type := some "middleware",
                         admin_required := some (.bool true) } }

/-- The `/admin` route node of the scenario. -/
def adminRouteNode : Node :=
  { id := "5", properties := some { endpoint := some "/admin",
                                    method := some "GET" } }

/-- The node sequence of the admin-propagation scenario. -/
def adminNodes : List Node := [adminEntryNode, adminMwNode, adminRouteNode]

/-- The route record resolution produces for the scenario. -/
def adminRoute : Route :=
  { id := "5", endpoint := "/admin", method := "GET",
    authRequired := true, adminRequired := true }

/-- Witness for C1 at the admin-propagation scenario: the record for
`/admin` is admin-required by the targeting middleware alone, and its
endpoint is recorded in adminAuth's route set. -/
theorem C1_admin_propagation_witness :
    adminRoute.adminRequired = true ∧
    adminRoute.endpoint ∈ (parseNodes adminNodes).adminAuth.routes :=
  have hmw : adminMwNode ∈ adminNodes :=
    List.mem_cons.mpr (Or.inr (List.mem_cons.mpr (Or.inl rfl)))
  have hc := C1_admin_propagation adminNodes (by decide) (by decide)
    adminRoute (by decide)
  ⟨hc.1.mpr (Or.inr ⟨adminMwNode, hmw, rfl, rfl⟩),
   hc.2 ⟨adminMwNode, hmw, rfl, rfl⟩⟩
